import Mathlib

/-!
Shallow embedding of the relay8x protocol codec and device session
(`src/connect.rs`).

Bytes are modelled as `Nat` values; every arithmetic operation the Rust
code performs on `u8` (addition, subtraction, shifts) is embedded with the
wrapping two's-complement semantics of the compiled binary, written as
explicit `% 256` (and `% 32` for the `i32` shift-amount masking in
`1 << (x-1)`).  Frames and byte buffers are `List Nat`.

The only failure path inside the codec is a panic (`Option::unwrap` on
`None` when a non-Init command is encoded without a relay selector); it is
modelled by returning `none`.  The `io::Result` the Rust `encode` returns
is always `Ok`, so no error layer is needed for it.
-/

namespace Relay8x

/-- The command enum `Relay8xCmdSet` from `connect.rs`. -/
inductive Relay8xCmdSet
  | Init
  | Set
  | Toggle
  | Reset
  deriving DecidableEq, Repr

/-- `Relay8xCmdSet::checksummed`: XOR-fold over a byte slice, seed 0. -/
def checksummed (x : List Nat) : Nat :=
  x.foldl (fun checksum elem => checksum ^^^ elem) 0

/-- `Relay8xCmdSet::addressed`: `address + card.unwrap_or(1) - 1` in
wrapping `u8` arithmetic (`-1` becomes `+255` modulo 256). -/
def addressed (address : Nat) (card : Option Nat) : Nat :=
  (address + card.getD 1 + 255) % 256

/-- The mask contribution of one selector entry `x`: `(1 << (x-1)) as u8`
under the compiled wrapping semantics.  The `u8` subtraction wraps
(`+255 % 256`), the `i32` shift amount is masked to 5 bits (`% 32`), and
the `as u8` cast keeps the low byte (`% 256`). -/
def relayBit (x : Nat) : Nat :=
  (1 <<< (((x + 255) % 256) % 32)) % 256

/-- `Relay8xCmdSet::relay_as_u8`: OR-fold of the per-relay bits over the
reversed selector vector. -/
def relay_as_u8 (vec : List Nat) : Nat :=
  vec.reverse.foldl (fun relay_bin x => relay_bin ||| relayBit x) 0

/-- `Relay8xCmdSet::encode`: appends the 4-byte command frame to `bytes`.
`none` models the panic of `relays.unwrap()` when a non-Init command is
encoded with no selector; in every other case the Rust function returns
`Ok(())` with the frame appended. -/
def encode (cmd : Relay8xCmdSet) (bytes : List Nat) (start_address : Nat)
    (card : Option Nat) (relays : Option (List Nat)) : Option (List Nat) :=
  match cmd with
  | .Init =>
      let b := bytes ++ [1, start_address, 0]
      some (b ++ [checksummed b])
  | .Set => do
      let rel ← relays
      let b := bytes ++ [6, addressed start_address card, relay_as_u8 rel]
      some (b ++ [checksummed b])
  | .Toggle => do
      let rel ← relays
      let b := bytes ++ [8, addressed start_address card, relay_as_u8 rel]
      some (b ++ [checksummed b])
  | .Reset => do
      let rel ← relays
      let b := bytes ++ [7, addressed start_address card, relay_as_u8 rel]
      some (b ++ [checksummed b])

/-- The validation errors produced by `Relay8x::check_response` (in the
source they are `io::Error` values with these three messages). -/
inductive CheckErr
  | badFirstByte (got expected : Nat)
  | wrongAddress (got expected : Nat)
  | badChecksum
  deriving DecidableEq, Repr

/-- `Relay8x::check_response msg sent_msg`: the three sequential checks,
each byte access via `.get(i).unwrap_or(&d)` embedded as `List.getD i d`.
The Rust `!checker_byte` is the `u8` bitwise complement, `^^^ 255`. -/
def check_response (msg sent_msg : List Nat) : Except CheckErr Unit :=
  let checker_byte := sent_msg.getD 0 1
  let checked_bytes := msg.getD 0 1
  if checked_bytes ≠ checker_byte ^^^ 255 then
    .error (.badFirstByte checked_bytes (checker_byte ^^^ 255))
  else
    let resp_addr := msg.getD 1 0
    let sent_addr := sent_msg.getD 1 1
    if resp_addr ≠ sent_addr ∧ sent_addr ≠ 0 then
      .error (.wrongAddress resp_addr sent_addr)
    else if msg.getD 3 0 ≠ (msg.getD 0 1) ^^^ (msg.getD 1 0) ^^^ (msg.getD 2 0) then
      .error .badChecksum
    else
      .ok ()

instance : DecidableEq (Except CheckErr Unit) := fun a b =>
  match a, b with
  | .ok u, .ok v => by cases u; cases v; exact isTrue rfl
  | .error e, .error f =>
      if h : e = f then isTrue (by rw [h]) else isFalse (by intro hc; cases hc; exact h rfl)
  | .ok _, .error _ => isFalse (by intro h; cases h)
  | .error _, .ok _ => isFalse (by intro h; cases h)

/-- Outcome of one of the batch operations `set_relays` / `reset_relays` /
`toggle_relays`: success, a `check_response` failure propagated by `?`, a
transport (read) error propagated by `?`, or a panic inside `encode`. -/
inductive BatchOutcome
  | ok
  | checkFailed (e : CheckErr)
  | ioError
  | panicked
  deriving DecidableEq, Repr

/-- The per-card loop shared by `set_relays`, `reset_relays` and
`toggle_relays`: for each card, encode into a fresh (cleared) buffer, write
the frame, read the reply, validate it against the frame just sent, and
stop at the first failure.  The transport is abstracted as a read oracle
`resp : Nat → Option (List Nat)` giving the buffer contents after the
`i`-th read (`none` = read error).  Returns the list of frames that were
written, in order, together with the outcome. -/
def batchGo (op : Relay8xCmdSet) (resp : Nat → Option (List Nat))
    (start_address : Nat) (numbers : List Nat) :
    List Nat → List (List Nat) × BatchOutcome
  | [] => ([], .ok)
  | card :: rest =>
      match encode op [] start_address (some card) (some numbers) with
      | none => ([], .panicked)
      | some frame =>
          match resp 0 with
          | none => ([frame], .ioError)
          | some reply =>
              match check_response reply frame with
              | .error e => ([frame], .checkFailed e)
              | .ok _ =>
                  let r := batchGo op (fun n => resp (n + 1)) start_address numbers rest
                  (frame :: r.1, r.2)

/-- `Relay8x::set_relays` (connect.rs): iterate the card vector, sending
one Set frame per card. -/
def set_relays (resp : Nat → Option (List Nat)) (start_address : Nat)
    (cards numbers : List Nat) : List (List Nat) × BatchOutcome :=
  batchGo .Set resp start_address numbers cards

/-- `Relay8x::reset_relays` (connect.rs): same loop with the Reset
command. -/
def reset_relays (resp : Nat → Option (List Nat)) (start_address : Nat)
    (cards numbers : List Nat) : List (List Nat) × BatchOutcome :=
  batchGo .Reset resp start_address numbers cards

/-- `Relay8x::toggle_relays` (connect.rs): same loop with the Toggle
command. -/
def toggle_relays (resp : Nat → Option (List Nat)) (start_address : Nat)
    (cards numbers : List Nat) : List (List Nat) × BatchOutcome :=
  batchGo .Toggle resp start_address numbers cards

/-- The frame `set_relays`/`reset_relays`/`toggle_relays` sends for one
card (the buffer is cleared before each `encode`, and the selector is
always present there, so `encode` yields `some`). -/
def cardFrame (op : Relay8xCmdSet) (start_address card : Nat)
    (numbers : List Nat) : List Nat :=
  (encode op [] start_address (some card) (some numbers)).getD []

/-- The `i`-th exchange of a batch succeeds: the read delivers a reply and
`check_response` accepts it against the frame sent for the `i`-th card. -/
def stepOK (op : Relay8xCmdSet) (resp : Nat → Option (List Nat))
    (start_address : Nat) (numbers cards : List Nat) (i : Nat) : Bool :=
  match resp i with
  | none => false
  | some reply =>
      decide (check_response reply (cardFrame op start_address (cards.getD i 0) numbers) = .ok ())

/-- The read loop of `Relay8x::init_device`: each iteration appends one
`0` byte to the accumulated buffer (`resp.put_u8(0)`), lets the transport
overwrite the buffer (`port.read(&mut resp[..])`, oracle
`readO i buf`; `none` = read error propagated by `?`), and exits when the
buffer contains the sentinel byte 9.  The Rust `loop` has no iteration
bound; `fuel` counts iterations, and exhausting it (`none`) means the loop
is still running after `fuel` iterations. -/
def init_loop (readO : Nat → List Nat → Option (List Nat)) :
    Nat → List Nat → Nat → Option (Option (List Nat))
  | 0, _, _ => none
  | fuel + 1, resp, i =>
      match readO i (resp ++ [0]) with
      | none => some none
      | some resp' =>
          if resp'.contains 9 then some (some resp')
          else init_loop readO fuel resp' (i + 1)

/-- `Relay8x::init_device`: encode the Init frame, write it, run the read
loop, and return the frame that was sent.  `none` = the loop has not
terminated within `fuel` iterations; `some none` = a read error was
propagated; `some (some frame)` = the loop saw the sentinel and the init
frame is returned. -/
def init_device (readO : Nat → List Nat → Option (List Nat))
    (start_address : Nat) (fuel : Nat) : Option (Option (List Nat)) :=
  match init_loop readO fuel [] 0 with
  | none => none
  | some none => some none
  | some (some _) => some (encode .Init [] start_address none none)

/-! ## Helper lemmas -/

/-- Unfolding `relay_as_u8` one selector entry at a time. -/
theorem relay_as_u8_cons (x : Nat) (s : List Nat) :
    relay_as_u8 (x :: s) = relay_as_u8 s ||| relayBit x := by
  simp [relay_as_u8, List.foldl_append]

/-- XOR on `Nat` is right-commutative, so the checksum fold is
permutation-invariant. -/
instance : RightCommutative (fun (checksum elem : Nat) => checksum ^^^ elem) :=
  ⟨fun b a₁ a₂ => by simp [Nat.xor_assoc, Nat.xor_comm a₁ a₂]⟩

/-- OR on `Nat` is right-commutative. -/
instance : RightCommutative (fun (relay_bin x : Nat) => relay_bin ||| relayBit x) :=
  ⟨fun b a₁ a₂ => by simp [Nat.or_assoc, Nat.or_comm (relayBit a₁) (relayBit a₂)]⟩

theorem checksummed_perm {l₁ l₂ : List Nat} (h : l₁.Perm l₂) :
    checksummed l₁ = checksummed l₂ :=
  h.foldl_eq 0

theorem relay_as_u8_perm {l₁ l₂ : List Nat} (h : l₁.Perm l₂) :
    relay_as_u8 l₁ = relay_as_u8 l₂ :=
  (((l₁.reverse_perm).trans h).trans l₂.reverse_perm.symm).foldl_eq 0

/-! ## Claims -/

/-- C1. On 4-byte frames, `check_response` succeeds iff the response
opcode is the bitwise complement of the sent opcode, the response address
matches the sent address unless the sent address is 0, and the response
checksum is the XOR of the response's own first three bytes; no other
bytes take part. -/
theorem c1_check_response_iff (m0 m1 m2 m3 s0 s1 s2 s3 : Nat) :
    check_response [m0, m1, m2, m3] [s0, s1, s2, s3] = .ok () ↔
      (m0 = s0 ^^^ 255 ∧ (s1 = 0 ∨ m1 = s1) ∧ m3 = m0 ^^^ m1 ^^^ m2) := by
  simp only [check_response, List.getD_cons_zero, List.getD_cons_succ]
  split_ifs with h1 h2 h3 <;> simp_all <;> tauto

/-- C10. `check_response` is total on frames of any length: each byte
access substitutes a fixed default when the byte is missing (sent opcode
1, response opcode 1, response address 0, sent address 1, response
checksum 0, and 1/0/0 for the response bytes in the checksum
recomputation); in particular an empty sent frame yields sent address 1,
not 0, so the address check is not skipped. -/
theorem c10_check_response_total :
    (∀ msg sent_msg : List Nat,
        check_response msg sent_msg = .ok () ↔
          (msg.getD 0 1 = (sent_msg.getD 0 1) ^^^ 255 ∧
           (sent_msg.getD 1 1 = 0 ∨ msg.getD 1 0 = sent_msg.getD 1 1) ∧
           msg.getD 3 0 = (msg.getD 0 1) ^^^ (msg.getD 1 0) ^^^ (msg.getD 2 0))) ∧
    check_response [254, 0, 0, 254] [] = .error (.wrongAddress 0 1) := by
  constructor
  · intro msg sent_msg
    simp only [check_response]
    split_ifs with h1 h2 h3 <;> simp_all <;> tauto
  · rfl

/-- C2. For every command encoded into a fresh buffer, the fourth frame
byte is `opcode ^^^ address ^^^ data` (opcode 1 for Init with data 0, 6
for Set, 7 for Reset, 8 for Toggle with the relay mask as data), and the
checksum fold is order-independent (invariant under permutation of the
bytes it folds over). -/
theorem c2_checksum_byte :
    (∀ (a : Nat) (card : Option Nat) (rel : Option (List Nat)),
        encode .Init [] a card rel = some [1, a, 0, 1 ^^^ a ^^^ 0]) ∧
    (∀ (a : Nat) (card : Option Nat) (ns : List Nat),
        encode .Set [] a card (some ns) =
          some [6, addressed a card, relay_as_u8 ns,
                6 ^^^ addressed a card ^^^ relay_as_u8 ns]) ∧
    (∀ (a : Nat) (card : Option Nat) (ns : List Nat),
        encode .Reset [] a card (some ns) =
          some [7, addressed a card, relay_as_u8 ns,
                7 ^^^ addressed a card ^^^ relay_as_u8 ns]) ∧
    (∀ (a : Nat) (card : Option Nat) (ns : List Nat),
        encode .Toggle [] a card (some ns) =
          some [8, addressed a card, relay_as_u8 ns,
                8 ^^^ addressed a card ^^^ relay_as_u8 ns]) ∧
    (∀ l₁ l₂ : List Nat, l₁.Perm l₂ → checksummed l₁ = checksummed l₂) := by
  refine ⟨?_, ?_, ?_, ?_, fun l₁ l₂ h => checksummed_perm h⟩ <;>
    intros <;> simp [encode, checksummed]

/-- C2 witness: the theorem applied at a concrete permutation. -/
theorem c2_checksum_byte_witness : checksummed [1, 2, 3] = checksummed [3, 1, 2] :=
  c2_checksum_byte.2.2.2.2 [1, 2, 3] [3, 1, 2] (by decide)

/-- C5. With base address `A < 256` and card offset `c ≥ 1` (a `u8`), the
address byte of a Set/Reset/Toggle frame is `(A + c - 1) % 256`; an
absent offset defaults to 1 and offset 1 yields `A`; the Init frame's
address byte is `A` itself (offset forced to 1). -/
theorem c5_address_arithmetic (a c : Nat) (ns : List Nat)
    (ha : a < 256) (hc1 : 1 ≤ c) :
    (∀ op ∈ [Relay8xCmdSet.Set, .Reset, .Toggle],
        ((encode op [] a (some c) (some ns)).getD []).getD 1 0 = (a + c - 1) % 256) ∧
    addressed a none = a ∧
    addressed a (some 1) = a ∧
    ((encode .Init [] a none none).getD []).getD 1 0 = a := by
  have hmod : (a + c + 255) % 256 = (a + c - 1) % 256 := by
    have h1 : a + c + 255 = (a + c - 1) + 256 := by omega
    rw [h1, Nat.add_mod_right]
  have haddr : addressed a none = a := by
    simp [addressed, Option.getD, Nat.add_assoc]
    omega
  refine ⟨?_, haddr, ?_, ?_⟩
  · intro op hop
    fin_cases hop <;> simp [encode, addressed, Option.getD, hmod]
  · simpa [addressed, Option.getD] using haddr
  · simp [encode]

/-- C5 witness: base address 10, offset 3 gives address byte 12; absent
and unit offsets give 10; the Init frame is addressed at 10. -/
theorem c5_address_arithmetic_witness :
    (∀ op ∈ [Relay8xCmdSet.Set, .Reset, .Toggle],
        ((encode op [] 10 (some 3) (some [1])).getD []).getD 1 0 = (10 + 3 - 1) % 256) ∧
    addressed 10 none = 10 ∧
    addressed 10 (some 1) = 10 ∧
    ((encode .Init [] 10 none none).getD []).getD 1 0 = 10 :=
  c5_address_arithmetic 10 3 [1] (by decide) (by decide)

/-- C3 counterexample: encoding a Set command whose selector contains the
out-of-range value 9 succeeds (the codec performs no range validation and
no `InvalidRelayNumber` error exists in the source); bit `9 - 1 = 8` is
truncated away by the `as u8` cast, so the data byte is 0. -/
theorem c3_counterexample :
    encode .Set [] 1 (some 1) (some [9]) = some [6, 1, 0, 7] := by decide

/-- C3 amended: out-of-range relay values are not rejected; under the
compiled wrapping semantics the values 0 and 9 each contribute 0 to the
mask, and Set/Reset/Toggle encoding succeeds with data byte 0. -/
theorem c3_amended :
    relay_as_u8 [0] = 0 ∧ relay_as_u8 [9] = 0 ∧
    (∀ op ∈ [Relay8xCmdSet.Set, .Reset, .Toggle],
        ∀ (a : Nat) (card : Option Nat) (x : Nat), x = 0 ∨ x = 9 →
          encode op [] a card (some [x]) ≠ none ∧
          ((encode op [] a card (some [x])).getD []).getD 2 1 = 0) := by
  refine ⟨by decide, by decide, ?_⟩
  intro op hop a card x hx
  fin_cases hop <;> rcases hx with rfl | rfl <;>
    simp [encode, relay_as_u8, relayBit]

/-- C3 amended witness: the amended theorem applied to a Set command with
selector `[9]`. -/
theorem c3_amended_witness :
    encode .Set [] 1 (some 1) (some [9]) ≠ none ∧
    ((encode .Set [] 1 (some 1) (some [9])).getD []).getD 2 1 = 0 :=
  c3_amended.2.2 .Set (by decide) 1 (some 1) 9 (Or.inr rfl)

/-- C6 counterexample: encoding a Set command with the relay selector
absent panics (`relays.unwrap()` on `None`, modelled by `none`); the
source has no `MissingRelaySelector` error value — its `io::Result` is
always `Ok`. -/
theorem c6_counterexample : encode .Set [] 1 (some 1) none = none := rfl

/-- C6 amended: a non-Init command encoded with the selector absent
panics rather than returning a `MissingRelaySelector` error, while a
present but empty selector succeeds and produces data byte 0. -/
theorem c6_amended :
    ∀ op ∈ [Relay8xCmdSet.Set, .Reset, .Toggle],
      ∀ (a : Nat) (card : Option Nat),
        encode op [] a card none = none ∧
        encode op [] a card (some []) ≠ none ∧
        ((encode op [] a card (some [])).getD []).getD 2 1 = 0 := by
  intro op hop a card
  fin_cases hop <;> simp [encode, relay_as_u8]

/-- C6 amended witness: the amended theorem applied to a Reset command at
base address 5, card offset 2. -/
theorem c6_amended_witness :
    encode .Reset [] 5 (some 2) none = none ∧
    encode .Reset [] 5 (some 2) (some []) ≠ none ∧
    ((encode .Reset [] 5 (some 2) (some [])).getD []).getD 2 1 = 0 :=
  c6_amended .Reset (by decide) 5 (some 2)

/-- For relay numbers in `1..=8` the mask contribution is the single bit
`2 ^ (n - 1)`. -/
theorem relayBit_valid {x : Nat} (h1 : 1 ≤ x) (h8 : x ≤ 8) :
    relayBit x = 2 ^ (x - 1) := by
  interval_cases x <;> decide

theorem testBit_two_pow_iff (j i : Nat) : (Nat.testBit (2 ^ j) i = true) ↔ j = i := by
  constructor
  · intro h
    by_contra hne
    rw [Nat.testBit_two_pow_of_ne hne] at h
    exact Bool.false_ne_true h
  · rintro rfl
    exact Nat.testBit_two_pow_self

/-- Bit `i` of the relay mask is set exactly when some selected relay `x`
has `x - 1 = i` (selectors with all values in `1..=8`). -/
theorem relay_as_u8_testBit (S : List Nat) (hS : ∀ x ∈ S, 1 ≤ x ∧ x ≤ 8)
    (i : Nat) : ((relay_as_u8 S).testBit i = true) ↔ ∃ x ∈ S, i = x - 1 := by
  induction S with
  | nil => simp [relay_as_u8, Nat.zero_testBit]
  | cons y s ih =>
      have hy := hS y (by simp)
      have hs : ∀ x ∈ s, 1 ≤ x ∧ x ≤ 8 := fun x hx => hS x (by simp [hx])
      rw [relay_as_u8_cons, Nat.testBit_or, relayBit_valid hy.1 hy.2]
      simp only [Bool.or_eq_true, ih hs, testBit_two_pow_iff, List.mem_cons]
      constructor
      · rintro (⟨x, hx, rfl⟩ | rfl)
        · exact ⟨x, Or.inr hx, rfl⟩
        · exact ⟨y, Or.inl rfl, rfl⟩
      · rintro ⟨x, hx | hx, rfl⟩
        · exact Or.inr (by rw [hx])
        · exact Or.inl ⟨x, hx, rfl⟩

/-- The mask of a concatenation is the OR of the masks. -/
theorem relay_as_u8_append (S T : List Nat) :
    relay_as_u8 (S ++ T) = relay_as_u8 S ||| relay_as_u8 T := by
  induction S with
  | nil => simp [relay_as_u8]
  | cons y s ih =>
      rw [List.cons_append, relay_as_u8_cons, relay_as_u8_cons, ih,
        Nat.or_assoc, Nat.or_assoc, Nat.or_comm (relay_as_u8 T)]

/-- C4. For selectors with all values in `1..=8`: bit `n-1` of the mask is
set exactly for the selected relays `n`; for a duplicate-free selector the
mask has exactly `|S|` bits set; the mask of a union (concatenation) is
the OR of the masks; the empty selector gives 0 and the full selector
gives 0xFF; the mask is order-independent and duplicates have no
additional effect. -/
theorem c4_relay_mask :
    (∀ S : List Nat, (∀ x ∈ S, 1 ≤ x ∧ x ≤ 8) → ∀ n, 1 ≤ n → n ≤ 8 →
        (((relay_as_u8 S).testBit (n - 1) = true) ↔ n ∈ S)) ∧
    (∀ S : List Nat, (∀ x ∈ S, 1 ≤ x ∧ x ≤ 8) → S.Nodup →
        ((Finset.range 8).filter (fun i => (relay_as_u8 S).testBit i = true)).card
          = S.length) ∧
    (∀ S T : List Nat, relay_as_u8 (S ++ T) = relay_as_u8 S ||| relay_as_u8 T) ∧
    relay_as_u8 [] = 0 ∧
    relay_as_u8 [1, 2, 3, 4, 5, 6, 7, 8] = 255 ∧
    (∀ S T : List Nat, S.Perm T → relay_as_u8 S = relay_as_u8 T) ∧
    (∀ (x : Nat) (S : List Nat), relay_as_u8 (x :: x :: S) = relay_as_u8 (x :: S)) := by
  refine ⟨?_, ?_, relay_as_u8_append, by decide, by decide,
    fun S T h => relay_as_u8_perm h, ?_⟩
  · intro S hS n hn1 hn8
    rw [relay_as_u8_testBit S hS]
    constructor
    · rintro ⟨x, hx, hnx⟩
      have := hS x hx
      have : x = n := by omega
      exact this ▸ hx
    · intro hn
      exact ⟨n, hn, rfl⟩
  · intro S hS hnd
    have himg : (Finset.range 8).filter (fun i => (relay_as_u8 S).testBit i = true)
        = S.toFinset.image (fun x => x - 1) := by
      ext i
      simp only [Finset.mem_filter, Finset.mem_range, Finset.mem_image,
        List.mem_toFinset, relay_as_u8_testBit S hS]
      constructor
      · rintro ⟨_, x, hx, rfl⟩
        exact ⟨x, hx, rfl⟩
      · rintro ⟨x, hx, rfl⟩
        have := hS x hx
        exact ⟨by omega, x, hx, rfl⟩
    rw [himg, Finset.card_image_of_injOn, List.toFinset_card_of_nodup hnd]
    intro x hx y hy hxy
    have := hS x (List.mem_toFinset.mp hx)
    have := hS y (List.mem_toFinset.mp hy)
    simp only [] at hxy
    omega
  · intro x S
    rw [relay_as_u8_cons, relay_as_u8_cons, Nat.or_assoc, Nat.or_self]

/-- C4 witness: the bit and popcount parts applied to the selector
`[1, 3]`. -/
theorem c4_relay_mask_witness :
    (((relay_as_u8 [1, 3]).testBit (3 - 1) = true) ↔ 3 ∈ [1, 3]) ∧
    ((Finset.range 8).filter (fun i => (relay_as_u8 [1, 3]).testBit i = true)).card
      = [1, 3].length :=
  ⟨c4_relay_mask.1 [1, 3] (by decide) 3 (by decide) (by decide),
   c4_relay_mask.2.1 [1, 3] (by decide) (by decide)⟩

/-- C7 counterexample: with an empty card selector, `set_relays`,
`reset_relays` and `toggle_relays` send no frame at all and report
success — the loop body never runs, so no frame is addressed at the base
address. -/
theorem c7_counterexample :
    set_relays (fun _ => some [0, 0, 0, 0]) 1 [] [1] = ([], .ok) ∧
    reset_relays (fun _ => some [0, 0, 0, 0]) 1 [] [1] = ([], .ok) ∧
    toggle_relays (fun _ => some [0, 0, 0, 0]) 1 [] [1] = ([], .ok) :=
  ⟨rfl, rfl, rfl⟩

/-- C7 amended: `set_relays`/`reset_relays`/`toggle_relays` iterate over
the card vector as given; an empty card selector performs no operation
(zero frames encoded or exchanged, immediate success).  The default card
offset 1 lives only in `addressed`'s `unwrap_or(1)` and is never
exercised by these operations, which always pass `Some(card)`. -/
theorem c7_amended :
    ∀ (resp : Nat → Option (List Nat)) (a : Nat) (ns : List Nat),
      set_relays resp a [] ns = ([], .ok) ∧
      reset_relays resp a [] ns = ([], .ok) ∧
      toggle_relays resp a [] ns = ([], .ok) :=
  fun _ _ _ => ⟨rfl, rfl, rfl⟩

/-- With a fresh buffer and a present selector, `encode` always yields the
per-card frame (no panic is possible on this path). -/
theorem encode_card (op : Relay8xCmdSet) (a c : Nat) (ns : List Nat) :
    encode op [] a (some c) (some ns) = some (cardFrame op a c ns) := by
  cases op <;> rfl

/-- Shifting one card off the batch shifts the exchange index and the
read oracle together. -/
theorem stepOK_cons (op : Relay8xCmdSet) (resp : Nat → Option (List Nat))
    (a : Nat) (ns : List Nat) (card : Nat) (rest : List Nat) (i : Nat) :
    stepOK op resp a ns (card :: rest) (i + 1)
      = stepOK op (fun n => resp (n + 1)) a ns rest i := rfl

/-- Fail-fast shape of the batch loop: if the first `j` exchanges succeed
and exchange `j` fails, exactly the frames for the first `j + 1` cards
are written and the outcome is not success. -/
theorem batchGo_fail_fast (op : Relay8xCmdSet) :
    ∀ (cards : List Nat) (resp : Nat → Option (List Nat)) (a : Nat)
      (ns : List Nat) (j : Nat),
      j < cards.length →
      (∀ i, i < j → stepOK op resp a ns cards i = true) →
      stepOK op resp a ns cards j = false →
      (batchGo op resp a ns cards).1
          = (cards.take (j + 1)).map (fun c => cardFrame op a c ns) ∧
      (batchGo op resp a ns cards).2 ≠ .ok := by
  intro cards
  induction cards with
  | nil => intro resp a ns j hj; exact absurd hj (by simp)
  | cons card rest ih =>
      intro resp a ns j hj hpre hbad
      cases j with
      | zero =>
          simp only [stepOK, List.getD_cons_zero] at hbad
          simp only [batchGo, encode_card]
          cases hr : resp 0 with
          | none => simp [hr]
          | some reply =>
              simp only [hr, decide_eq_false_iff_not] at hbad
              cases hc : check_response reply (cardFrame op a card ns) with
              | error e => simp [hr, hc]
              | ok u =>
                  cases u
                  exact absurd hc hbad
      | succ j' =>
          have h0 := hpre 0 (Nat.succ_pos j')
          simp only [stepOK, List.getD_cons_zero] at h0
          cases hr : resp 0 with
          | none => rw [hr] at h0; simp at h0
          | some reply =>
              simp only [hr, decide_eq_true_eq] at h0
              simp only [batchGo, encode_card, hr, h0]
              have hrest := ih (fun n => resp (n + 1)) a ns j'
                (by simpa using Nat.lt_of_succ_lt_succ hj)
                (fun i hi => by
                  have hstep := hpre (i + 1) (Nat.succ_lt_succ hi)
                  rwa [stepOK_cons] at hstep)
                (by
                  have hstep := hbad
                  rwa [stepOK_cons] at hstep)
              refine ⟨?_, hrest.2⟩
              simp only [List.take_succ_cons, List.map_cons]
              rw [hrest.1]

/-- C9. The batches are fail-fast: for `set_relays`, `reset_relays` and
`toggle_relays`, if the exchanges for the first `j` cards succeed and the
exchange for card `j` fails (read error or rejected response), then
exactly the frames for cards `0..j` were written — no frame is encoded or
written for any later card — and the error is propagated. -/
theorem c9_fail_fast :
    (∀ (resp : Nat → Option (List Nat)) (a : Nat) (ns cards : List Nat) (j : Nat),
        j < cards.length →
        (∀ i, i < j → stepOK .Set resp a ns cards i = true) →
        stepOK .Set resp a ns cards j = false →
        (set_relays resp a cards ns).1
            = (cards.take (j + 1)).map (fun c => cardFrame .Set a c ns) ∧
        (set_relays resp a cards ns).2 ≠ .ok) ∧
    (∀ (resp : Nat → Option (List Nat)) (a : Nat) (ns cards : List Nat) (j : Nat),
        j < cards.length →
        (∀ i, i < j → stepOK .Reset resp a ns cards i = true) →
        stepOK .Reset resp a ns cards j = false →
        (reset_relays resp a cards ns).1
            = (cards.take (j + 1)).map (fun c => cardFrame .Reset a c ns) ∧
        (reset_relays resp a cards ns).2 ≠ .ok) ∧
    (∀ (resp : Nat → Option (List Nat)) (a : Nat) (ns cards : List Nat) (j : Nat),
        j < cards.length →
        (∀ i, i < j → stepOK .Toggle resp a ns cards i = true) →
        stepOK .Toggle resp a ns cards j = false →
        (toggle_relays resp a cards ns).1
            = (cards.take (j + 1)).map (fun c => cardFrame .Toggle a c ns) ∧
        (toggle_relays resp a cards ns).2 ≠ .ok) :=
  ⟨fun resp a ns cards j hj hpre hbad =>
      batchGo_fail_fast .Set cards resp a ns j hj hpre hbad,
   fun resp a ns cards j hj hpre hbad =>
      batchGo_fail_fast .Reset cards resp a ns j hj hpre hbad,
   fun resp a ns cards j hj hpre hbad =>
      batchGo_fail_fast .Toggle cards resp a ns j hj hpre hbad⟩

/-- C9 witness: a three-card Set batch whose second exchange returns a
garbage reply sends exactly the first two frames and fails. -/
theorem c9_fail_fast_witness :
    (set_relays (fun i => if i = 0 then some [249, 1, 1, 249] else some [0, 0, 0, 0])
        1 [1, 2, 3] [1]).1
      = ([1, 2, 3].take 2).map (fun c => cardFrame .Set 1 c [1]) ∧
    (set_relays (fun i => if i = 0 then some [249, 1, 1, 249] else some [0, 0, 0, 0])
        1 [1, 2, 3] [1]).2 ≠ .ok :=
  c9_fail_fast.1 (fun i => if i = 0 then some [249, 1, 1, 249] else some [0, 0, 0, 0])
    1 [1] [1, 2, 3] 1 (by decide) (by decide) (by decide)

/-- On an all-zero buffer, the identity read oracle (a device that keeps
the buffer full of zero bytes) never produces the sentinel, so the init
read loop runs out of any amount of fuel. -/
theorem init_loop_zero_buffer (fuel : Nat) :
    ∀ (resp : List Nat) (i : Nat), (∀ x ∈ resp, x = 0) →
      init_loop (fun _ b => some b) fuel resp i = none := by
  induction fuel with
  | zero => intro resp i _; rfl
  | succ fuel ih =>
      intro resp i h0
      have hall : ∀ x ∈ resp ++ [0], x = 0 := by
        intro x hx
        rcases List.mem_append.mp hx with hx | hx
        · exact h0 x hx
        · simpa using hx
      have h9 : (resp ++ [0]).contains 9 = false := by
        simp only [List.contains]
        rw [Bool.eq_false_iff]
        intro he
        have : (9 : Nat) ∈ resp ++ [0] := by
          simpa [List.elem_iff] using he
        have := hall 9 this
        omega
      simp only [init_loop, h9]
      exact ih (resp ++ [0]) (i + 1) hall

/-- C8. The init read loop is NOT bounded: against a device that always
answers with zero bytes (read succeeds, buffer stays all zeros, sentinel
9 never appears), `init_device` fails to terminate within any finite
number of loop iterations. -/
theorem c8_init_loop_unbounded (a fuel : Nat) :
    init_loop (fun _ b => some b) fuel [] 0 = none ∧
    init_device (fun _ b => some b) a fuel = none := by
  have h := init_loop_zero_buffer fuel [] 0 (by intro x hx; cases hx)
  exact ⟨h, by rw [init_device, h]⟩

end Relay8x
